import Mathlib

/-!
Verification of the scan-conversion, transformation, hit-testing and
persistence core of an interactive 2D graphics editor
(src/graphics_editor.py).  Every definition below is a shallow embedding of
the Python function of the same (or clearly indicated) name.  Python float
arithmetic is modelled exactly over the rationals wherever the source only
uses field operations and comparisons, and over the reals where the source
calls sqrt, sin or cos.  The rasterizers are modelled as the sequence of
logical pixel positions they hand to the pixel plotter.
-/

namespace GraphicsEditor

/-- Python round applied to a rational: nearest integer, ties to even
(bankers rounding), as used by the DDA rasterizers on each emitted
coordinate. -/
def pyRound (q : ℚ) : ℤ :=
  if q - ⌊q⌋ < 1 / 2 then ⌊q⌋
  else if 1 / 2 < q - ⌊q⌋ then ⌊q⌋ + 1
  else if ⌊q⌋ % 2 = 0 then ⌊q⌋ else ⌊q⌋ + 1

/-- Python int applied to a rational: truncation toward zero, as used on the
step count `steps = int(max(abs(dx), abs(dy)))` of both DDA rasterizers. -/
def pyInt (q : ℚ) : ℤ := if q < 0 then -⌊-q⌋ else ⌊q⌋

theorem pyRound_intCast (n : ℤ) : pyRound (n : ℚ) = n := by
  simp only [pyRound, Int.floor_intCast, sub_self]
  norm_num

theorem pyInt_intCast (n : ℤ) : pyInt (n : ℚ) = n := by
  unfold pyInt
  split
  · rw [show -(n : ℚ) = ((-n : ℤ) : ℚ) by push_cast; ring, Int.floor_intCast]
    ring
  · rw [Int.floor_intCast]

/-- Incremental plotting loop shared by `dda_line` (one forward pass) and
`symmetrical_dda_line` (a forward pass and a backward pass, the latter being
this loop with negated increments): plot the rounded current position, then
advance by the per-step increment. -/
def ddaLoop (xinc yinc : ℚ) : ℕ → ℚ → ℚ → List (ℚ × ℚ)
  | 0, _, _ => []
  | n + 1, x, y =>
      ((pyRound x : ℚ), (pyRound y : ℚ)) :: ddaLoop xinc yinc n (x + xinc) (y + yinc)

/-- DDA line rasterizer (`dda_line` in the source): `steps =
int(max(abs(dx), abs(dy)))`; a single unrounded point when `steps == 0`,
otherwise `steps + 1` points obtained by repeatedly adding `(dx/steps,
dy/steps)` and rounding. -/
def dda_line (x1 y1 x2 y2 : ℚ) : List (ℚ × ℚ) :=
  if pyInt (max |x2 - x1| |y2 - y1|) = 0 then [(x1, y1)]
  else
    ddaLoop ((x2 - x1) / (pyInt (max |x2 - x1| |y2 - y1|) : ℚ))
      ((y2 - y1) / (pyInt (max |x2 - x1| |y2 - y1|) : ℚ))
      ((pyInt (max |x2 - x1| |y2 - y1|)).toNat + 1) x1 y1

/-- Symmetrical DDA rasterizer (`symmetrical_dda_line` in the source): first
half walked forward from (x1,y1) for `steps // 2 + 1` plots, second half
walked backward from (x2,y2) for `steps - steps // 2` plots. -/
def symmetrical_dda_line (x1 y1 x2 y2 : ℚ) : List (ℚ × ℚ) :=
  if pyInt (max |x2 - x1| |y2 - y1|) = 0 then [(x1, y1)]
  else
    ddaLoop ((x2 - x1) / (pyInt (max |x2 - x1| |y2 - y1|) : ℚ))
      ((y2 - y1) / (pyInt (max |x2 - x1| |y2 - y1|) : ℚ))
      ((pyInt (max |x2 - x1| |y2 - y1|)).toNat / 2 + 1) x1 y1 ++
    ddaLoop (-((x2 - x1) / (pyInt (max |x2 - x1| |y2 - y1|) : ℚ)))
      (-((y2 - y1) / (pyInt (max |x2 - x1| |y2 - y1|) : ℚ)))
      ((pyInt (max |x2 - x1| |y2 - y1|)).toNat -
        (pyInt (max |x2 - x1| |y2 - y1|)).toNat / 2) x2 y2

theorem ddaLoop_eq_map (xinc yinc : ℚ) :
    ∀ (n : ℕ) (x y : ℚ),
      ddaLoop xinc yinc n x y =
        (List.range n).map fun i : ℕ =>
          ((pyRound (x + (i : ℚ) * xinc) : ℚ), (pyRound (y + (i : ℚ) * yinc) : ℚ)) := by
  intro n
  induction n with
  | zero => intro x y; simp [ddaLoop]
  | succ n ih =>
      intro x y
      rw [show ddaLoop xinc yinc (n + 1) x y =
            ((pyRound x : ℚ), (pyRound y : ℚ)) ::
              ddaLoop xinc yinc n (x + xinc) (y + yinc) from rfl,
        ih, List.range_succ_eq_map, List.map_cons, List.map_map]
      congr 1
      · norm_num
      · apply List.map_congr_left
        intro i _
        simp only [Function.comp_apply]
        have hx : (x + xinc) + (i : ℚ) * xinc = x + ((Nat.succ i : ℕ) : ℚ) * xinc := by
          push_cast
          ring
        have hy : (y + yinc) + (i : ℚ) * yinc = y + ((Nat.succ i : ℕ) : ℚ) * yinc := by
          push_cast
          ring
        rw [hx, hy]

theorem ddaLoop_length (xinc yinc : ℚ) (n : ℕ) (x y : ℚ) :
    (ddaLoop xinc yinc n x y).length = n := by
  rw [ddaLoop_eq_map]
  simp

/-- Coordinate mapper, logical to screen (`logical_to_screen`), with the
canvas midpoints passed explicitly in place of the globals MID_X / MID_Y. -/
def logical_to_screen (midX midY lx ly : ℤ) : ℤ × ℤ := (lx + midX, midY - ly)

/-- Coordinate mapper, screen to logical (`screen_to_logical`). -/
def screen_to_logical (midX midY sx sy : ℤ) : ℤ × ℤ := (sx - midX, midY - sy)

/-- C3: for every integer logical point and any canvas midpoints, mapping to
screen coordinates and back is the identity: the two coordinate mappings are
exact inverses on integer inputs. -/
theorem coordinate_round_trip :
    ∀ midX midY lx ly : ℤ,
      screen_to_logical midX midY (logical_to_screen midX midY lx ly).1
        (logical_to_screen midX midY lx ly).2 = (lx, ly) := by
  intro midX midY lx ly
  simp only [logical_to_screen, screen_to_logical, Prod.mk.injEq]
  omega

/-- C1 (amended): the DDA step count is the truncation toward zero of
max(|dx|, |dy|) (Python `int`, not `round`); when it is 0 the rasterizer
emits the single unrounded point (x1, y1), and otherwise it emits exactly
steps + 1 points, the i-th being (x1 + i*dx/steps, y1 + i*dy/steps) rounded
componentwise to the nearest integer; in particular from (0,0) to (10,0) it
emits exactly the 11 points (i, 0) for i = 0..10. -/
theorem dda_line_spec :
    (∀ x1 y1 x2 y2 : ℚ,
      (pyInt (max |x2 - x1| |y2 - y1|) = 0 → dda_line x1 y1 x2 y2 = [(x1, y1)]) ∧
      (pyInt (max |x2 - x1| |y2 - y1|) ≠ 0 →
        dda_line x1 y1 x2 y2 =
          (List.range ((pyInt (max |x2 - x1| |y2 - y1|)).toNat + 1)).map fun i : ℕ =>
            ((pyRound (x1 + (i : ℚ) *
                ((x2 - x1) / (pyInt (max |x2 - x1| |y2 - y1|) : ℚ))) : ℚ),
             (pyRound (y1 + (i : ℚ) *
                ((y2 - y1) / (pyInt (max |x2 - x1| |y2 - y1|) : ℚ))) : ℚ)))) ∧
    dda_line 0 0 10 0 = (List.range 11).map fun i : ℕ => ((i : ℚ), (0 : ℚ)) := by
  constructor
  · intro x1 y1 x2 y2
    constructor
    · intro h
      simp [dda_line, h]
    · intro h
      rw [dda_line, if_neg h, ddaLoop_eq_map]
  · have hsteps : pyInt (max |(10 : ℚ) - 0| |(0 : ℚ) - 0|) = 10 := by
      rw [show max |(10 : ℚ) - 0| |(0 : ℚ) - 0| = ((10 : ℤ) : ℚ) by push_cast; norm_num,
        pyInt_intCast]
    rw [dda_line, hsteps, if_neg (by decide), ddaLoop_eq_map]
    apply List.map_congr_left
    intro i _
    have hx : (0 : ℚ) + (i : ℚ) * ((10 - 0) / ((10 : ℤ) : ℚ)) = ((i : ℤ) : ℚ) := by
      push_cast
      norm_num
    have hy : (0 : ℚ) + (i : ℚ) * ((0 - 0) / ((10 : ℤ) : ℚ)) = ((0 : ℤ) : ℚ) := by
      push_cast
      norm_num
    rw [hx, hy, pyRound_intCast, pyRound_intCast]
    push_cast
    rfl

/-- Witness for the amended C1 theorem at the concrete input (0,0)-(2,0). -/
theorem dda_line_spec_witness :
    dda_line 0 0 2 0 =
      (List.range ((pyInt (max |(2 : ℚ) - 0| |(0 : ℚ) - 0|)).toNat + 1)).map fun i : ℕ =>
        ((pyRound (0 + (i : ℚ) *
            (((2 : ℚ) - 0) / (pyInt (max |(2 : ℚ) - 0| |(0 : ℚ) - 0|) : ℚ))) : ℚ),
         (pyRound (0 + (i : ℚ) *
            (((0 : ℚ) - 0) / (pyInt (max |(2 : ℚ) - 0| |(0 : ℚ) - 0|) : ℚ))) : ℚ)) :=
  (dda_line_spec.1 0 0 2 0).2 (by
    rw [show max |(2 : ℚ) - 0| |(0 : ℚ) - 0| = ((2 : ℤ) : ℚ) by push_cast; norm_num,
      pyInt_intCast]
    decide)

/-- C1 counterexample: for the endpoints (0,0)-(2.7,0) the DDA rasterizer
emits 3 points (its step count is int(2.7) = 2), not round(2.7) + 1 = 4 as
the claim states. -/
theorem dda_line_round_counterexample :
    ¬ (dda_line 0 0 (27 / 10) 0).length =
        (round (max |(27 / 10 : ℚ) - 0| |(0 : ℚ) - 0|)).toNat + 1 := by
  have harg : max |(27 / 10 : ℚ) - 0| |(0 : ℚ) - 0| = 27 / 10 := by norm_num
  have hsteps : pyInt (max |(27 / 10 : ℚ) - 0| |(0 : ℚ) - 0|) = 2 := by
    rw [harg]
    unfold pyInt
    rw [if_neg (by norm_num)]
    exact Int.floor_eq_iff.mpr (by norm_num)
  have hround : round (max |(27 / 10 : ℚ) - 0| |(0 : ℚ) - 0|) = 3 := by
    rw [harg, round_eq]
    exact Int.floor_eq_iff.mpr (by norm_num)
  rw [dda_line, hsteps, hround, if_neg (by decide), ddaLoop_length]
  decide

theorem pyInt_steps_intCast (x1 y1 x2 y2 : ℤ) :
    pyInt (max |(x2 : ℚ) - (x1 : ℚ)| |(y2 : ℚ) - (y1 : ℚ)|) = max |x2 - x1| |y2 - y1| := by
  have h : max |(x2 : ℚ) - (x1 : ℚ)| |(y2 : ℚ) - (y1 : ℚ)| =
      ((max |x2 - x1| |y2 - y1| : ℤ) : ℚ) := by
    push_cast
    rfl
  rw [h, pyInt_intCast]

theorem dda_line_endpoints (x1 y1 x2 y2 : ℤ) :
    ((x1 : ℚ), (y1 : ℚ)) ∈ dda_line x1 y1 x2 y2 ∧
      ((x2 : ℚ), (y2 : ℚ)) ∈ dda_line x1 y1 x2 y2 := by
  set K := max |x2 - x1| |y2 - y1| with hKdef
  have hK0 : 0 ≤ K := le_trans (abs_nonneg _) (le_max_left _ _)
  rw [dda_line, pyInt_steps_intCast, ← hKdef]
  by_cases hK : K = 0
  · have h1 := le_max_left |x2 - x1| |y2 - y1|
    have h2 := le_max_right |x2 - x1| |y2 - y1|
    rw [← hKdef, hK] at h1 h2
    have hx2 : x2 = x1 := by
      have := abs_eq_zero.mp (le_antisymm h1 (abs_nonneg _))
      omega
    have hy2 : y2 = y1 := by
      have := abs_eq_zero.mp (le_antisymm h2 (abs_nonneg _))
      omega
    rw [if_pos hK, hx2, hy2]
    exact ⟨List.mem_singleton.mpr rfl, List.mem_singleton.mpr rfl⟩
  · rw [if_neg hK, ddaLoop_eq_map]
    constructor
    · apply List.mem_map.mpr
      refine ⟨0, List.mem_range.mpr (by omega), ?_⟩
      simp [pyRound_intCast]
    · apply List.mem_map.mpr
      refine ⟨K.toNat, List.mem_range.mpr (by omega), ?_⟩
      have hKQ : ((K : ℚ)) ≠ 0 := Int.cast_ne_zero.mpr hK
      have hKcast : ((K.toNat : ℕ) : ℚ) = ((K : ℚ)) := by
        rw [← Int.cast_natCast, Int.toNat_of_nonneg hK0]
      have hvx : (x1 : ℚ) + ((K.toNat : ℕ) : ℚ) * (((x2 : ℚ) - (x1 : ℚ)) / (K : ℚ)) =
          ((x2 : ℤ) : ℚ) := by
        rw [hKcast]
        field_simp
      have hvy : (y1 : ℚ) + ((K.toNat : ℕ) : ℚ) * (((y2 : ℚ) - (y1 : ℚ)) / (K : ℚ)) =
          ((y2 : ℤ) : ℚ) := by
        rw [hKcast]
        field_simp
      rw [hvx, hvy, pyRound_intCast, pyRound_intCast]

theorem symmetrical_dda_line_endpoints (x1 y1 x2 y2 : ℤ) :
    ((x1 : ℚ), (y1 : ℚ)) ∈ symmetrical_dda_line x1 y1 x2 y2 ∧
      ((x2 : ℚ), (y2 : ℚ)) ∈ symmetrical_dda_line x1 y1 x2 y2 := by
  set K := max |x2 - x1| |y2 - y1| with hKdef
  have hK0 : 0 ≤ K := le_trans (abs_nonneg _) (le_max_left _ _)
  rw [symmetrical_dda_line, pyInt_steps_intCast, ← hKdef]
  by_cases hK : K = 0
  · have h1 := le_max_left |x2 - x1| |y2 - y1|
    have h2 := le_max_right |x2 - x1| |y2 - y1|
    rw [← hKdef, hK] at h1 h2
    have hx2 : x2 = x1 := by
      have := abs_eq_zero.mp (le_antisymm h1 (abs_nonneg _))
      omega
    have hy2 : y2 = y1 := by
      have := abs_eq_zero.mp (le_antisymm h2 (abs_nonneg _))
      omega
    rw [if_pos hK, hx2, hy2]
    exact ⟨List.mem_singleton.mpr rfl, List.mem_singleton.mpr rfl⟩
  · rw [if_neg hK]
    have hKt : 1 ≤ K.toNat := by
      have h := Int.toNat_of_nonneg hK0
      omega
    constructor
    · apply List.mem_append_left
      simp only [ddaLoop]
      rw [pyRound_intCast x1, pyRound_intCast y1]
      exact List.mem_cons_self _ _
    · apply List.mem_append_right
      obtain ⟨c, hc⟩ : ∃ c, K.toNat - K.toNat / 2 = c + 1 := by
        refine ⟨K.toNat - K.toNat / 2 - 1, ?_⟩
        omega
      rw [hc]
      simp only [ddaLoop]
      rw [pyRound_intCast x2, pyRound_intCast y2]
      exact List.mem_cons_self _ _

/-- One update step of the Bresenham loop: if the decision variable is
nonnegative, advance the minor coordinate and subtract 2*dx; always advance
the major coordinate and add 2*dy. -/
def bresStep (sx sy dx dy : ℤ) (s : ℤ × ℤ × ℤ) : ℤ × ℤ × ℤ :=
  if 0 ≤ s.2.2 then (s.1 + sx, s.2.1 + sy, s.2.2 + 2 * dy - 2 * dx)
  else (s.1 + sx, s.2.1, s.2.2 + 2 * dy)

/-- State after n Bresenham updates. -/
def bresIter (sx sy dx dy : ℤ) : ℕ → ℤ × ℤ × ℤ → ℤ × ℤ × ℤ
  | 0, s => s
  | n + 1, s => bresIter sx sy dx dy n (bresStep sx sy dx dy s)

/-- Point plotted at a given Bresenham state: the loop variables are swapped
back on output in the steep case. -/
def bresPlot (steep : Bool) (s : ℤ × ℤ × ℤ) : ℤ × ℤ :=
  if steep then (s.2.1, s.1) else (s.1, s.2.1)

/-- The Bresenham plotting loop: plot the current state, update, repeat. -/
def bresLoop (steep : Bool) (sx sy dx dy : ℤ) : ℕ → ℤ × ℤ × ℤ → List (ℤ × ℤ)
  | 0, _ => []
  | n + 1, s => bresPlot steep s :: bresLoop steep sx sy dx dy n (bresStep sx sy dx dy s)

/-- Bresenham line rasterizer (`bresenham_line` in the source): axes are
swapped for steep lines (|dy| > |dx|) and swapped back on output; the loop
runs dx + 1 times in the (possibly swapped) frame starting from the decision
variable 2*dy - dx. -/
def bresenham_line (x1 y1 x2 y2 : ℤ) : List (ℤ × ℤ) :=
  if |x2 - x1| < |y2 - y1| then
    bresLoop true (if y1 < y2 then 1 else -1) (if x1 < x2 then 1 else -1)
      |y2 - y1| |x2 - x1| (|y2 - y1|.toNat + 1) (y1, x1, 2 * |x2 - x1| - |y2 - y1|)
  else
    bresLoop false (if x1 < x2 then 1 else -1) (if y1 < y2 then 1 else -1)
      |x2 - x1| |y2 - y1| (|x2 - x1|.toNat + 1) (x1, y1, 2 * |y2 - y1| - |x2 - x1|)

theorem bresLoop_mem_head (steep : Bool) (sx sy dx dy : ℤ) (n : ℕ) (s : ℤ × ℤ × ℤ) :
    bresPlot steep s ∈ bresLoop steep sx sy dx dy (n + 1) s :=
  List.mem_cons_self _ _

theorem bresLoop_mem_iter (steep : Bool) (sx sy dx dy : ℤ) :
    ∀ (n : ℕ) (s : ℤ × ℤ × ℤ),
      bresPlot steep (bresIter sx sy dx dy n s) ∈ bresLoop steep sx sy dx dy (n + 1) s := by
  intro n
  induction n with
  | zero => intro s; exact List.mem_cons_self _ _
  | succ n ih =>
      intro s
      exact List.mem_cons_of_mem _ (ih (bresStep sx sy dx dy s))

theorem bresIter_closed (sx sy dx dy : ℤ) :
    ∀ (n : ℕ) (s : ℤ × ℤ × ℤ),
      ∃ m : ℤ, 0 ≤ m ∧
        bresIter sx sy dx dy n s =
          (s.1 + sx * n, s.2.1 + sy * m, s.2.2 + 2 * n * dy - 2 * m * dx) := by
  intro n
  induction n with
  | zero =>
      rintro ⟨x, y, p⟩
      exact ⟨0, le_refl 0, by simp [bresIter]⟩
  | succ n ih =>
      rintro ⟨x, y, p⟩
      obtain ⟨m, hm0, hEq⟩ := ih (bresStep sx sy dx dy (x, y, p))
      rw [show bresIter sx sy dx dy (n + 1) (x, y, p) =
            bresIter sx sy dx dy n (bresStep sx sy dx dy (x, y, p)) from rfl]
      by_cases hp : (0 : ℤ) ≤ p
      · refine ⟨m + 1, by omega, ?_⟩
        rw [hEq]
        simp only [bresStep, if_pos hp]
        refine Prod.ext ?_ (Prod.ext ?_ ?_) <;> (dsimp only; try push_cast; try ring)
      · refine ⟨m, hm0, ?_⟩
        rw [hEq]
        simp only [bresStep, if_neg hp]
        refine Prod.ext ?_ (Prod.ext ?_ ?_) <;> (dsimp only; try push_cast; try ring)

theorem bresIter_p_bounds (sx sy dx dy : ℤ) (hdx : 1 ≤ dx) (hdy : 0 ≤ dy) (hle : dy ≤ dx) :
    ∀ (n : ℕ) (s : ℤ × ℤ × ℤ),
      2 * dy - 2 * dx ≤ s.2.2 → s.2.2 ≤ 2 * dy - 1 →
      2 * dy - 2 * dx ≤ (bresIter sx sy dx dy n s).2.2 ∧
        (bresIter sx sy dx dy n s).2.2 ≤ 2 * dy - 1 := by
  intro n
  induction n with
  | zero => intro s h1 h2; exact ⟨h1, h2⟩
  | succ n ih =>
      rintro ⟨x, y, p⟩ h1 h2
      dsimp only at h1 h2
      rw [show bresIter sx sy dx dy (n + 1) (x, y, p) =
            bresIter sx sy dx dy n (bresStep sx sy dx dy (x, y, p)) from rfl]
      apply ih
      · by_cases hp : (0 : ℤ) ≤ p
        · simp only [bresStep, if_pos hp]
          omega
        · simp only [bresStep, if_neg hp]
          omega
      · by_cases hp : (0 : ℤ) ≤ p
        · simp only [bresStep, if_pos hp]
          omega
        · simp only [bresStep, if_neg hp]
          omega

theorem bresIter_final (sx sy dx dy : ℤ) (hdx : 1 ≤ dx) (hdy : 0 ≤ dy) (hle : dy ≤ dx)
    (a b : ℤ) :
    (bresIter sx sy dx dy dx.toNat (a, b, 2 * dy - dx)).1 = a + sx * dx ∧
    (bresIter sx sy dx dy dx.toNat (a, b, 2 * dy - dx)).2.1 = b + sy * dy := by
  obtain ⟨m, hm0, hEq⟩ := bresIter_closed sx sy dx dy dx.toNat (a, b, 2 * dy - dx)
  have hb := bresIter_p_bounds sx sy dx dy hdx hdy hle dx.toNat (a, b, 2 * dy - dx)
    (by dsimp only; omega) (by dsimp only; omega)
  rw [hEq] at hb ⊢
  dsimp only at hb ⊢
  have hcast : ((dx.toNat : ℕ) : ℤ) = dx := Int.toNat_of_nonneg (by omega)
  rw [hcast] at hb ⊢
  have hm1 : m ≤ dy := by
    by_contra hcon
    push_neg at hcon
    have hmul : (dy + 1) * dx ≤ m * dx :=
      mul_le_mul_of_nonneg_right (by omega) (by omega)
    nlinarith [hb.1]
  have hm2 : dy ≤ m := by
    by_contra hcon
    push_neg at hcon
    have hmul : (m + 1) * dx ≤ dy * dx :=
      mul_le_mul_of_nonneg_right (by omega) (by omega)
    nlinarith [hb.2]
  have hm : m = dy := le_antisymm hm1 hm2
  rw [hm]
  exact ⟨rfl, rfl⟩

theorem bresenham_line_endpoints (x1 y1 x2 y2 : ℤ) :
    (x1, y1) ∈ bresenham_line x1 y1 x2 y2 ∧ (x2, y2) ∈ bresenham_line x1 y1 x2 y2 := by
  rw [bresenham_line]
  by_cases hsteep : |x2 - x1| < |y2 - y1|
  · rw [if_pos hsteep]
    have hdx : 1 ≤ |y2 - y1| := by
      have := abs_nonneg (x2 - x1)
      omega
    constructor
    · have h := bresLoop_mem_head true (if y1 < y2 then 1 else -1) (if x1 < x2 then 1 else -1)
        |y2 - y1| |x2 - x1| |y2 - y1|.toNat (y1, x1, 2 * |x2 - x1| - |y2 - y1|)
      simpa [bresPlot] using h
    · have hfin := bresIter_final (if y1 < y2 then 1 else -1) (if x1 < x2 then 1 else -1)
        |y2 - y1| |x2 - x1| hdx (abs_nonneg _) (le_of_lt hsteep) y1 x1
      have h := bresLoop_mem_iter true (if y1 < y2 then 1 else -1) (if x1 < x2 then 1 else -1)
        |y2 - y1| |x2 - x1| |y2 - y1|.toNat (y1, x1, 2 * |x2 - x1| - |y2 - y1|)
      set I := bresIter (if y1 < y2 then 1 else -1) (if x1 < x2 then 1 else -1)
        |y2 - y1| |x2 - x1| |y2 - y1|.toNat (y1, x1, 2 * |x2 - x1| - |y2 - y1|) with hI
      have hPlot : bresPlot true I = (I.2.1, I.1) := rfl
      rw [hPlot, hfin.1, hfin.2] at h
      have hvx : x1 + (if x1 < x2 then 1 else -1) * |x2 - x1| = x2 := by
        by_cases hc : x1 < x2
        · rw [if_pos hc, abs_of_nonneg (by omega)]
          ring
        · rw [if_neg hc, abs_of_nonpos (by omega)]
          ring
      have hvy : y1 + (if y1 < y2 then 1 else -1) * |y2 - y1| = y2 := by
        by_cases hc : y1 < y2
        · rw [if_pos hc, abs_of_nonneg (by omega)]
          ring
        · rw [if_neg hc, abs_of_nonpos (by omega)]
          ring
      rw [hvx, hvy] at h
      exact h
  · rw [if_neg hsteep]
    push_neg at hsteep
    by_cases hzero : |x2 - x1| = 0
    · have hx2 : x2 = x1 := by
        have := abs_eq_zero.mp hzero
        omega
      have hy2 : y2 = y1 := by
        have h1 : |y2 - y1| = 0 := le_antisymm (hzero ▸ hsteep) (abs_nonneg _)
        have := abs_eq_zero.mp h1
        omega
      subst hx2
      subst hy2
      refine ⟨?_, ?_⟩ <;>
        simpa [bresPlot] using bresLoop_mem_head false (if x2 < x2 then 1 else -1)
          (if y2 < y2 then 1 else -1) |x2 - x2| |y2 - y2| |x2 - x2|.toNat
          (x2, y2, 2 * |y2 - y2| - |x2 - x2|)
    · have hdx : 1 ≤ |x2 - x1| := by
        have := abs_nonneg (x2 - x1)
        omega
      constructor
      · have h := bresLoop_mem_head false (if x1 < x2 then 1 else -1) (if y1 < y2 then 1 else -1)
          |x2 - x1| |y2 - y1| |x2 - x1|.toNat (x1, y1, 2 * |y2 - y1| - |x2 - x1|)
        simpa [bresPlot] using h
      · have hfin := bresIter_final (if x1 < x2 then 1 else -1) (if y1 < y2 then 1 else -1)
          |x2 - x1| |y2 - y1| hdx (abs_nonneg _) hsteep x1 y1
        have h := bresLoop_mem_iter false (if x1 < x2 then 1 else -1) (if y1 < y2 then 1 else -1)
          |x2 - x1| |y2 - y1| |x2 - x1|.toNat (x1, y1, 2 * |y2 - y1| - |x2 - x1|)
        set I := bresIter (if x1 < x2 then 1 else -1) (if y1 < y2 then 1 else -1)
          |x2 - x1| |y2 - y1| |x2 - x1|.toNat (x1, y1, 2 * |y2 - y1| - |x2 - x1|) with hI
        have hPlot : bresPlot false I = (I.1, I.2.1) := rfl
        rw [hPlot, hfin.1, hfin.2] at h
        have hvx : x1 + (if x1 < x2 then 1 else -1) * |x2 - x1| = x2 := by
          by_cases hc : x1 < x2
          · rw [if_pos hc, abs_of_nonneg (by omega)]
            ring
          · rw [if_neg hc, abs_of_nonpos (by omega)]
            ring
        have hvy : y1 + (if y1 < y2 then 1 else -1) * |y2 - y1| = y2 := by
          by_cases hc : y1 < y2
          · rw [if_pos hc, abs_of_nonneg (by omega)]
            ring
          · rw [if_neg hc, abs_of_nonpos (by omega)]
            ring
        rw [hvx, hvy] at h
        exact h

/-- C2: for every pair of integer endpoints, each of the three line
rasterizers (DDA, Symmetrical DDA, Bresenham) emits a pixel sequence
containing both (x1, y1) and (x2, y2) exactly. -/
theorem line_endpoint_inclusion :
    ∀ x1 y1 x2 y2 : ℤ,
      (((x1 : ℚ), (y1 : ℚ)) ∈ dda_line x1 y1 x2 y2 ∧
        ((x2 : ℚ), (y2 : ℚ)) ∈ dda_line x1 y1 x2 y2) ∧
      (((x1 : ℚ), (y1 : ℚ)) ∈ symmetrical_dda_line x1 y1 x2 y2 ∧
        ((x2 : ℚ), (y2 : ℚ)) ∈ symmetrical_dda_line x1 y1 x2 y2) ∧
      ((x1, y1) ∈ bresenham_line x1 y1 x2 y2 ∧
        (x2, y2) ∈ bresenham_line x1 y1 x2 y2) := by
  intro x1 y1 x2 y2
  exact ⟨dda_line_endpoints x1 y1 x2 y2, symmetrical_dda_line_endpoints x1 y1 x2 y2,
    bresenham_line_endpoints x1 y1 x2 y2⟩

/-- Clamped projection parameter of the hit-tester line branch:
`t = max(0, min(1, dot_product / length_sq))`. -/
def lineClampT (qx qy x1 y1 x2 y2 : ℚ) : ℚ :=
  max 0 (min 1 (((qx - x1) * (x2 - x1) + (qy - y1) * (y2 - y1)) /
    ((x2 - x1) ^ 2 + (y2 - y1) ^ 2)))

/-- The closest point on the clamped segment computed by the hit tester: the
first endpoint for a degenerate (single-point) line, otherwise
`(x1 + t*dx, y1 + t*dy)`. -/
def lineClosestPoint (qx qy x1 y1 x2 y2 : ℚ) : ℚ × ℚ :=
  if (x2 - x1) ^ 2 + (y2 - y1) ^ 2 = 0 then (x1, y1)
  else (x1 + lineClampT qx qy x1 y1 x2 y2 * (x2 - x1),
        y1 + lineClampT qx qy x1 y1 x2 y2 * (y2 - y1))

/-- Squared distance computed by the hit-tester line branch (the source takes
`math.sqrt` of exactly this quantity). -/
def lineDistSq (qx qy x1 y1 x2 y2 : ℚ) : ℚ :=
  if (x2 - x1) ^ 2 + (y2 - y1) ^ 2 = 0 then (qx - x1) ^ 2 + (qy - y1) ^ 2
  else
    (qx - (x1 + lineClampT qx qy x1 y1 x2 y2 * (x2 - x1))) ^ 2 +
      (qy - (y1 + lineClampT qx qy x1 y1 x2 y2 * (y2 - y1))) ^ 2

/-- Euclidean distance between two rational points, as a real number. -/
noncomputable def pointDistR (ux uy vx vy : ℚ) : ℝ :=
  Real.sqrt (((ux - vx) ^ 2 + (uy - vy) ^ 2 : ℚ))

open Classical in
/-- Hit record produced by the line branch of `mousePressEvent` in selection
mode: `none` models the infinite sort distance of a miss, and on a hit the
sort key is the absolute difference between the distance and the visual
half-thickness `(thickness - 1) / 2`. -/
noncomputable def lineHitEntry (qx qy x1 y1 x2 y2 thickness : ℚ) : Option ℝ :=
  if Real.sqrt ((lineDistSq qx qy x1 y1 x2 y2 : ℚ) : ℝ) ≤
      (((thickness - 1) / 2 : ℚ) : ℝ) + 10 then
    some |Real.sqrt ((lineDistSq qx qy x1 y1 x2 y2 : ℚ) : ℝ) -
      (((thickness - 1) / 2 : ℚ) : ℝ)|
  else none

/-- Decidable form of the line hit condition, comparing squared distances. -/
def lineIsHit (qx qy x1 y1 x2 y2 thickness : ℚ) : Bool :=
  decide (lineDistSq qx qy x1 y1 x2 y2 ≤ ((thickness - 1) / 2 + 10) ^ 2)

theorem lineHit_sqrt_iff (qx qy x1 y1 x2 y2 t : ℚ) (ht : 1 ≤ t) :
    Real.sqrt ((lineDistSq qx qy x1 y1 x2 y2 : ℚ) : ℝ) ≤
        (((t - 1) / 2 : ℚ) : ℝ) + 10 ↔
      lineDistSq qx qy x1 y1 x2 y2 ≤ ((t - 1) / 2 + 10) ^ 2 := by
  have hh : (0 : ℚ) ≤ (t - 1) / 2 := by linarith
  have h0 : (0 : ℝ) ≤ (((t - 1) / 2 : ℚ) : ℝ) + 10 := by
    have h1 : ((0 : ℚ) : ℝ) ≤ (((t - 1) / 2 : ℚ) : ℝ) := Rat.cast_le.mpr hh
    rw [Rat.cast_zero] at h1
    linarith
  rw [Real.sqrt_le_left h0,
    show (((t - 1) / 2 : ℚ) : ℝ) + 10 = (((t - 1) / 2 + 10 : ℚ) : ℝ) by push_cast; ring,
    ← Rat.cast_pow, Rat.cast_le]

/-- C4: the line hit-tester reports a hit exactly when the distance from the
click to the closest point on the clamped segment is at most
`(thickness - 1)/2 + 10`; the sort key among hits is the absolute difference
between that distance and the half-thickness; in particular a thickness-3
line from (0,0) to (10,0) is hit at (5,2) and missed at (5,25). -/
theorem line_hit_test_spec :
    (∀ qx qy x1 y1 x2 y2 : ℚ,
      Real.sqrt ((lineDistSq qx qy x1 y1 x2 y2 : ℚ) : ℝ) =
        pointDistR qx qy (lineClosestPoint qx qy x1 y1 x2 y2).1
          (lineClosestPoint qx qy x1 y1 x2 y2).2) ∧
    (∀ qx qy x1 y1 x2 y2 t : ℚ, 1 ≤ t →
      (lineHitEntry qx qy x1 y1 x2 y2 t ≠ none ↔
        lineIsHit qx qy x1 y1 x2 y2 t = true)) ∧
    (∀ qx qy x1 y1 x2 y2 t : ℚ,
      lineHitEntry qx qy x1 y1 x2 y2 t ≠ none →
      lineHitEntry qx qy x1 y1 x2 y2 t =
        some |Real.sqrt ((lineDistSq qx qy x1 y1 x2 y2 : ℚ) : ℝ) -
          (((t - 1) / 2 : ℚ) : ℝ)|) ∧
    lineIsHit 5 2 0 0 10 0 3 = true ∧ lineIsHit 5 25 0 0 10 0 3 = false := by
  refine ⟨?_, ?_, ?_, ?_, ?_⟩
  · intro qx qy x1 y1 x2 y2
    by_cases h : (x2 - x1) ^ 2 + (y2 - y1) ^ 2 = 0
    · rw [lineDistSq, lineClosestPoint, if_pos h, if_pos h]
      rfl
    · rw [lineDistSq, lineClosestPoint, if_neg h, if_neg h]
      rfl
  · intro qx qy x1 y1 x2 y2 t ht
    rw [lineHitEntry]
    by_cases hc : Real.sqrt ((lineDistSq qx qy x1 y1 x2 y2 : ℚ) : ℝ) ≤
        (((t - 1) / 2 : ℚ) : ℝ) + 10
    · rw [if_pos hc]
      simp only [ne_eq, reduceCtorEq, not_false_eq_true, true_iff]
      rw [lineIsHit, decide_eq_true_eq]
      exact (lineHit_sqrt_iff qx qy x1 y1 x2 y2 t ht).mp hc
    · rw [if_neg hc]
      simp only [ne_eq, not_true_eq_false, false_iff]
      rw [lineIsHit, decide_eq_true_eq]
      intro hle
      exact hc ((lineHit_sqrt_iff qx qy x1 y1 x2 y2 t ht).mpr hle)
  · intro qx qy x1 y1 x2 y2 t hne
    rw [lineHitEntry] at hne ⊢
    by_cases hc : Real.sqrt ((lineDistSq qx qy x1 y1 x2 y2 : ℚ) : ℝ) ≤
        (((t - 1) / 2 : ℚ) : ℝ) + 10
    · rw [if_pos hc]
    · rw [if_neg hc] at hne
      exact absurd rfl hne
  · rw [lineIsHit, decide_eq_true_eq]
    have h : lineDistSq 5 2 0 0 10 0 = 4 := by
      rw [lineDistSq, if_neg (by norm_num), lineClampT]
      norm_num [min_def, max_def]
    rw [h]
    norm_num
  · rw [lineIsHit, decide_eq_false_iff_not]
    have h : lineDistSq 5 25 0 0 10 0 = 625 := by
      rw [lineDistSq, if_neg (by norm_num), lineClampT]
      norm_num [min_def, max_def]
    rw [h]
    norm_num

/-- Witness for the C4 theorem at the scenario input: click (5,2), line
(0,0)-(10,0), thickness 3. -/
theorem line_hit_test_spec_witness :
    lineHitEntry 5 2 0 0 10 0 3 ≠ none ↔ lineIsHit 5 2 0 0 10 0 3 = true :=
  line_hit_test_spec.2.1 5 2 0 0 10 0 3 (by norm_num)

/-- Candidate radii synthesized by `draw_thick_object` for a Thick circle:
`r + (i - (thickness - 1)/2)` for `i = 0 .. thickness - 1`. -/
def thickCircleOffsets (r : ℚ) (t : ℕ) : List ℚ :=
  (List.range t).map fun i : ℕ => r + ((i : ℚ) - ((t : ℚ) - 1) / 2)

/-- Radii actually drawn for a Thick circle: the source only draws a
concentric circle when `offset_r >= 1`. -/
def thickCircleDrawn (r : ℚ) (t : ℕ) : List ℚ :=
  (thickCircleOffsets r t).filter fun o => decide (1 ≤ o)

/-- Candidate radius pairs synthesized by `draw_thick_object` for a Thick
ellipse. -/
def thickEllipseOffsets (rx ry : ℚ) (t : ℕ) : List (ℚ × ℚ) :=
  (List.range t).map fun i : ℕ =>
    (rx + ((i : ℚ) - ((t : ℚ) - 1) / 2), ry + ((i : ℚ) - ((t : ℚ) - 1) / 2))

/-- Radius pairs actually drawn for a Thick ellipse: the source requires
`offset_rx >= 1 and offset_ry >= 1`. -/
def thickEllipseDrawn (rx ry : ℚ) (t : ℕ) : List (ℚ × ℚ) :=
  (thickEllipseOffsets rx ry t).filter fun o => decide (1 ≤ o.1) && decide (1 ≤ o.2)

/-- C5 counterexample: for a Thick circle of radius 1 and thickness 2 the
candidate radius 1/2 is strictly positive and is nevertheless skipped (the
source skips whenever the effective radius is below 1, not only when it is
non-positive). -/
theorem thick_skip_counterexample :
    (1 / 2 : ℚ) ∈ thickCircleOffsets 1 2 ∧ (0 : ℚ) < 1 / 2 ∧
      (1 / 2 : ℚ) ∉ thickCircleDrawn 1 2 := by
  refine ⟨?_, by norm_num, ?_⟩
  · rw [thickCircleOffsets]
    apply List.mem_map.mpr
    refine ⟨0, by simp, ?_⟩
    norm_num
  · rw [thickCircleDrawn, thickCircleOffsets]
    intro hmem
    rw [List.mem_filter] at hmem
    have := of_decide_eq_true hmem.2
    norm_num at this

/-- C5 (amended): for a Thick circle or ellipse of thickness t, exactly t
concentric candidates are synthesized with radii `r + (i - (t-1)/2)` for
i = 0..t-1, and a candidate is skipped exactly when its effective radius is
below 1 (for an ellipse, when either effective radius is below 1). -/
theorem thick_style_spec :
    (∀ (r : ℚ) (t : ℕ), (thickCircleOffsets r t).length = t) ∧
    (∀ (r : ℚ) (t : ℕ) (o : ℚ),
      o ∈ thickCircleDrawn r t ↔
        ((∃ i : ℕ, i < t ∧ o = r + ((i : ℚ) - ((t : ℚ) - 1) / 2)) ∧ 1 ≤ o)) ∧
    (∀ (rx ry : ℚ) (t : ℕ) (o : ℚ × ℚ),
      o ∈ thickEllipseDrawn rx ry t ↔
        ((∃ i : ℕ, i < t ∧
            o = (rx + ((i : ℚ) - ((t : ℚ) - 1) / 2),
                 ry + ((i : ℚ) - ((t : ℚ) - 1) / 2))) ∧
          (1 ≤ o.1 ∧ 1 ≤ o.2))) := by
  refine ⟨?_, ?_, ?_⟩
  · intro r t
    simp [thickCircleOffsets]
  · intro r t o
    simp only [thickCircleDrawn, thickCircleOffsets, List.mem_filter, List.mem_map,
      List.mem_range, decide_eq_true_eq]
    constructor
    · rintro ⟨⟨i, hi, rfl⟩, h⟩
      exact ⟨⟨i, hi, rfl⟩, h⟩
    · rintro ⟨⟨i, hi, rfl⟩, h⟩
      exact ⟨⟨i, hi, rfl⟩, h⟩
  · intro rx ry t o
    simp only [thickEllipseDrawn, thickEllipseOffsets, List.mem_filter, List.mem_map,
      List.mem_range, Bool.and_eq_true, decide_eq_true_eq]
    constructor
    · rintro ⟨⟨i, hi, rfl⟩, h1, h2⟩
      exact ⟨⟨i, hi, rfl⟩, h1, h2⟩
    · rintro ⟨⟨i, hi, rfl⟩, h1, h2⟩
      exact ⟨⟨i, hi, rfl⟩, h1, h2⟩

/-- Axis selector of a reflect record: "x", "y" or "origin". -/
inductive ReflectAxisKind where
  | x
  | y
  | origin

/-- Base parameters of a drawable primitive, one variant per object type with
the numeric fields of the corresponding params dictionary. -/
inductive PrimParams where
  | line (x1 y1 x2 y2 : ℝ)
  | circle (xc yc r : ℝ)
  | ellipse (xc yc rx ry : ℝ)

/-- A transformation record, one variant per record type handled by
`apply_transformations`. -/
inductive Transformation where
  | translate (dx dy : ℝ)
  | rotate (angle cx cy : ℝ)
  | scale (sx sy fx fy : ℝ)
  | reflectAxis (axis : ReflectAxisKind)
  | reflectLine (l1x l1y l2x l2y : ℝ)

open Classical in
/-- Reflection of a point across the line through two points
(`reflect_point_across_line` in the source): the point itself when the two
line points coincide, special cases for vertical and horizontal lines, and
the closed-form slope/intercept formula otherwise. -/
noncomputable def reflect_point_across_line (px py l1x l1y l2x l2y : ℝ) : ℝ × ℝ :=
  if l1x = l2x ∧ l1y = l2y then (px, py)
  else if l1x = l2x then (2 * l1x - px, py)
  else if l1y = l2y then (px, 2 * l1y - py)
  else
    let m := (l2y - l1y) / (l2x - l1x)
    let c := l1y - m * l1x
    let denom := 1 + m * m
    ((px * (1 - m * m) + 2 * m * py - 2 * m * c) / denom,
     (py * (m * m - 1) + 2 * m * px + 2 * c) / denom)

/-- Rotation of a point about a center by an angle in degrees, as computed
inline by the rotate branch of `apply_transformations`
(`math.radians` is multiplication by pi/180). -/
noncomputable def rotatePoint (px py cx cy angleDeg : ℝ) : ℝ × ℝ :=
  ((px - cx) * Real.cos (angleDeg * Real.pi / 180) -
      (py - cy) * Real.sin (angleDeg * Real.pi / 180) + cx,
   (px - cx) * Real.sin (angleDeg * Real.pi / 180) +
      (py - cy) * Real.cos (angleDeg * Real.pi / 180) + cy)

/-- Effect of a single transformation record on the primitive parameters,
following the corresponding branch of `apply_transformations`: translate
moves every point field; rotate rotates point fields about the stored
center; scale moves line endpoints per axis about the stored fixed point but
multiplies a circle radius by sx only and ellipse radii by (sx, sy); axis
reflection negates the matching coordinate fields; line reflection reflects
every point field and never touches radii. -/
noncomputable def applyTransformation (p : PrimParams) (t : Transformation) : PrimParams :=
  match t, p with
  | .translate dx dy, .line x1 y1 x2 y2 => .line (x1 + dx) (y1 + dy) (x2 + dx) (y2 + dy)
  | .translate dx dy, .circle xc yc r => .circle (xc + dx) (yc + dy) r
  | .translate dx dy, .ellipse xc yc rx ry => .ellipse (xc + dx) (yc + dy) rx ry
  | .rotate ang cx cy, .line x1 y1 x2 y2 =>
      .line (rotatePoint x1 y1 cx cy ang).1 (rotatePoint x1 y1 cx cy ang).2
        (rotatePoint x2 y2 cx cy ang).1 (rotatePoint x2 y2 cx cy ang).2
  | .rotate ang cx cy, .circle xc yc r =>
      .circle (rotatePoint xc yc cx cy ang).1 (rotatePoint xc yc cx cy ang).2 r
  | .rotate ang cx cy, .ellipse xc yc rx ry =>
      .ellipse (rotatePoint xc yc cx cy ang).1 (rotatePoint xc yc cx cy ang).2 rx ry
  | .scale sx sy fx fy, .line x1 y1 x2 y2 =>
      .line ((x1 - fx) * sx + fx) ((y1 - fy) * sy + fy)
        ((x2 - fx) * sx + fx) ((y2 - fy) * sy + fy)
  | .scale sx _ _ _, .circle xc yc r => .circle xc yc (r * sx)
  | .scale sx sy _ _, .ellipse xc yc rx ry => .ellipse xc yc (rx * sx) (ry * sy)
  | .reflectAxis .x, .line x1 y1 x2 y2 => .line x1 (-y1) x2 (-y2)
  | .reflectAxis .y, .line x1 y1 x2 y2 => .line (-x1) y1 (-x2) y2
  | .reflectAxis .origin, .line x1 y1 x2 y2 => .line (-x1) (-y1) (-x2) (-y2)
  | .reflectAxis .x, .circle xc yc r => .circle xc (-yc) r
  | .reflectAxis .y, .circle xc yc r => .circle (-xc) yc r
  | .reflectAxis .origin, .circle xc yc r => .circle (-xc) (-yc) r
  | .reflectAxis .x, .ellipse xc yc rx ry => .ellipse xc (-yc) rx ry
  | .reflectAxis .y, .ellipse xc yc rx ry => .ellipse (-xc) yc rx ry
  | .reflectAxis .origin, .ellipse xc yc rx ry => .ellipse (-xc) (-yc) rx ry
  | .reflectLine l1x l1y l2x l2y, .line x1 y1 x2 y2 =>
      .line (reflect_point_across_line x1 y1 l1x l1y l2x l2y).1
        (reflect_point_across_line x1 y1 l1x l1y l2x l2y).2
        (reflect_point_across_line x2 y2 l1x l1y l2x l2y).1
        (reflect_point_across_line x2 y2 l1x l1y l2x l2y).2
  | .reflectLine l1x l1y l2x l2y, .circle xc yc r =>
      .circle (reflect_point_across_line xc yc l1x l1y l2x l2y).1
        (reflect_point_across_line xc yc l1x l1y l2x l2y).2 r
  | .reflectLine l1x l1y l2x l2y, .ellipse xc yc rx ry =>
      .ellipse (reflect_point_across_line xc yc l1x l1y l2x l2y).1
        (reflect_point_across_line xc yc l1x l1y l2x l2y).2 rx ry

/-- Folding an ordered transformation list over base parameters, in insertion
order, as the loop of `apply_transformations` does on its local copy. -/
noncomputable def apply_transformations (p : PrimParams) (ts : List Transformation) :
    PrimParams :=
  ts.foldl applyTransformation p

/-- A drawable object as stored in the object list: stable id, base
parameters, and the ordered transformation history. -/
structure DrawableObject where
  id : ℤ
  params : PrimParams
  transformations : List Transformation

/-- State-passing embedding of a call to `apply_transformations(obj)`: the
source computes on `obj["params"].copy()` and only ever assigns into that
copy, so the call returns the effective parameters together with the object,
which is returned unchanged. -/
noncomputable def applyTransformationsCall (obj : DrawableObject) :
    PrimParams × DrawableObject :=
  (apply_transformations obj.params obj.transformations, obj)

/-- The bake step of `prompt_edit_object`: replace the base parameters with
the current effective parameters and clear the transformation list. -/
noncomputable def bakeObject (obj : DrawableObject) : DrawableObject :=
  { obj with
    params := apply_transformations obj.params obj.transformations,
    transformations := [] }

/-- C6: computing effective parameters leaves the stored base parameters and
the transformation list unchanged; only the explicit bake operation replaces
the base parameters with the effective ones and clears the transformation
list. -/
theorem apply_transformations_pure :
    ∀ obj : DrawableObject,
      (applyTransformationsCall obj).2.params = obj.params ∧
      (applyTransformationsCall obj).2.transformations = obj.transformations ∧
      (bakeObject obj).params = (applyTransformationsCall obj).1 ∧
      (bakeObject obj).transformations = [] := by
  intro obj
  exact ⟨rfl, rfl, rfl, rfl⟩

/-- C7: a scale record multiplies a circle radius by sx only, multiplies
ellipse radii by (sx, sy), and scales both line endpoints per axis relative
to the stored fixed point. -/
theorem scale_record_spec :
    ∀ sx sy fx fy xc yc r rx ry x1 y1 x2 y2 : ℝ,
      applyTransformation (.circle xc yc r) (.scale sx sy fx fy) =
        .circle xc yc (r * sx) ∧
      applyTransformation (.ellipse xc yc rx ry) (.scale sx sy fx fy) =
        .ellipse xc yc (rx * sx) (ry * sy) ∧
      applyTransformation (.line x1 y1 x2 y2) (.scale sx sy fx fy) =
        .line ((x1 - fx) * sx + fx) ((y1 - fy) * sy + fy)
          ((x2 - fx) * sx + fx) ((y2 - fy) * sy + fy) := by
  intro sx sy fx fy xc yc r rx ry x1 y1 x2 y2
  exact ⟨rfl, rfl, rfl⟩

theorem reflect_point_across_line_self (px py ax ay : ℝ) :
    reflect_point_across_line px py ax ay ax ay = (px, py) := by
  rw [reflect_point_across_line, if_pos ⟨rfl, rfl⟩]

/-- C9: a degenerate reflect-line record whose two points coincide leaves
every point unchanged, so applying it is the identity on effective
parameters for every object type. -/
theorem degenerate_reflect_line_spec :
    (∀ px py ax ay : ℝ, reflect_point_across_line px py ax ay ax ay = (px, py)) ∧
    (∀ (p : PrimParams) (ax ay : ℝ),
      applyTransformation p (.reflectLine ax ay ax ay) = p) := by
  refine ⟨reflect_point_across_line_self, ?_⟩
  intro p ax ay
  cases p <;> simp [applyTransformation, reflect_point_across_line_self]

/-- A persisted object record as far as loading logic is concerned: its
stored id and its algorithm-name string. -/
structure StoredObject where
  id : ℤ
  algorithm : String
  deriving DecidableEq

/-- The recognized algorithm names of the load-time `algo_map`. -/
def knownAlgorithmNames : List String :=
  ["dda_line", "bresenham_line", "symmetrical_dda_line", "draw_circle", "draw_ellipse"]

/-- The object-collecting loop of `load_objects_from_file`: keep records
whose algorithm name is recognized, tracking the running maximum id (which
starts at 0 and is bumped whenever a kept id exceeds it). -/
def loadObjectsAux : List StoredObject → List StoredObject × ℤ → List StoredObject × ℤ
  | [], acc => acc
  | o :: rest, (objs, maxId) =>
      if o.algorithm ∈ knownAlgorithmNames then
        loadObjectsAux rest (objs ++ [o], if maxId < o.id then o.id else maxId)
      else loadObjectsAux rest (objs, maxId)

/-- Load of the object store (`load_objects_from_file`): an absent file gives
the empty store with next id 0; a present file gives the kept records with
next id `max_id + 1` where max_id starts at 0. -/
def load_objects_from_file (file : Option (List StoredObject)) :
    List StoredObject × ℤ :=
  match file with
  | none => ([], 0)
  | some data =>
      ((loadObjectsAux data ([], 0)).1, (loadObjectsAux data ([], 0)).2 + 1)

/-- Deletion (`delete_selected_object`): remove the object with the selected
id from the list; the next-id counter is not touched. -/
def delete_selected_object (store : List StoredObject × ℤ) (sid : ℤ) :
    List StoredObject × ℤ :=
  (store.1.filter fun o => decide (o.id ≠ sid), store.2)

theorem if_lt_eq_max (a b : ℤ) : (if a < b then b else a) = max a b := by
  rcases lt_or_le a b with h | h
  · rw [if_pos h, max_eq_right h.le]
  · rw [if_neg (not_lt.mpr h), max_eq_left h]

theorem loadObjectsAux_spec :
    ∀ (l objs0 : List StoredObject) (m0 : ℤ),
      loadObjectsAux l (objs0, m0) =
        (objs0 ++ l.filter fun o => decide (o.algorithm ∈ knownAlgorithmNames),
         ((l.filter fun o => decide (o.algorithm ∈ knownAlgorithmNames)).map
            StoredObject.id).foldl max m0) := by
  intro l
  induction l with
  | nil =>
      intro objs0 m0
      simp [loadObjectsAux]
  | cons o rest ih =>
      intro objs0 m0
      by_cases h : o.algorithm ∈ knownAlgorithmNames
      · simp only [loadObjectsAux]
        rw [if_pos h, ih, if_lt_eq_max, List.filter_cons_of_pos (by simpa using h)]
        simp [List.append_assoc]
      · simp only [loadObjectsAux]
        rw [if_neg h, ih, List.filter_cons_of_neg (by simpa using h)]

theorem foldl_max_le_init : ∀ (l : List ℤ) (acc : ℤ), acc ≤ l.foldl max acc := by
  intro l
  induction l with
  | nil => intro acc; simp
  | cons a rest ih =>
      intro acc
      exact le_trans (le_max_left acc a) (ih (max acc a))

theorem foldl_max_ge_mem :
    ∀ (l : List ℤ) (acc y : ℤ), y ∈ l → y ≤ l.foldl max acc := by
  intro l
  induction l with
  | nil =>
      intro acc y hy
      simp at hy
  | cons a rest ih =>
      intro acc y hy
      rcases List.mem_cons.mp hy with h | h
      · subst h
        exact le_trans (le_max_right acc y) (foldl_max_le_init rest (max acc y))
      · exact ih (max acc a) y h

theorem foldl_max_cases :
    ∀ (l : List ℤ) (acc : ℤ), l.foldl max acc = acc ∨ l.foldl max acc ∈ l := by
  intro l
  induction l with
  | nil =>
      intro acc
      left
      rfl
  | cons a rest ih =>
      intro acc
      rcases ih (max acc a) with h | h
      · rcases le_or_lt a acc with hc | hc
        · left
          rw [List.foldl_cons, h, max_eq_left hc]
        · right
          rw [List.foldl_cons, h, max_eq_right hc.le]
          exact List.mem_cons_self _ _
      · right
        rw [List.foldl_cons]
        exact List.mem_cons_of_mem _ h

/-- C8 counterexample: loading an existing file holding an empty object list
yields an empty store with next id 1, not 0 as the claim states for an empty
store. -/
theorem load_empty_file_counterexample :
    (load_objects_from_file (some [])).1 = [] ∧
      (load_objects_from_file (some [])).2 ≠ 0 := by
  constructor
  · rfl
  · simp [load_objects_from_file, loadObjectsAux]

/-- C8 (amended): an absent file loads as the empty store with next id 0;
for a present file the next id is always (running maximum of kept ids,
starting from 0) + 1 — in particular 1, not 0, when the loaded store is
empty — and for a non-empty loaded store with non-negative ids this is
max(existing ids) + 1; deletion never changes the next id, and an id bound
strictly above all stored ids is distinct from every stored id, so ids are
not reused. -/
theorem load_next_id_spec :
    (load_objects_from_file none = ([], 0)) ∧
    (∀ data : List StoredObject,
      (load_objects_from_file (some data)).2 =
        (((load_objects_from_file (some data)).1.map StoredObject.id).foldl max 0) + 1) ∧
    (∀ data : List StoredObject,
      (load_objects_from_file (some data)).1 ≠ [] →
      (∀ o ∈ (load_objects_from_file (some data)).1, 0 ≤ o.id) →
      ∃ o ∈ (load_objects_from_file (some data)).1,
        (load_objects_from_file (some data)).2 = o.id + 1 ∧
        ∀ q ∈ (load_objects_from_file (some data)).1, q.id ≤ o.id) ∧
    (∀ (store : List StoredObject × ℤ) (sid : ℤ),
      (delete_selected_object store sid).2 = store.2) ∧
    (∀ (objs : List StoredObject) (n : ℤ) (o : StoredObject),
      (∀ q ∈ objs, q.id < n) → o ∈ objs → o.id ≠ n) := by
  refine ⟨rfl, ?_, ?_, ?_, ?_⟩
  · intro data
    simp only [load_objects_from_file]
    rw [loadObjectsAux_spec data [] 0]
    simp
  · intro data hne hnn
    simp only [load_objects_from_file] at hne hnn ⊢
    rw [loadObjectsAux_spec data [] 0] at hne hnn ⊢
    simp only [List.nil_append] at hne hnn ⊢
    set L := data.filter fun o => decide (o.algorithm ∈ knownAlgorithmNames) with hL
    rcases foldl_max_cases (L.map StoredObject.id) 0 with h0 | hmem
    · obtain ⟨o, ho⟩ := List.exists_mem_of_ne_nil L hne
      refine ⟨o, ho, ?_, ?_⟩
      · have h1 : o.id ≤ 0 :=
          h0 ▸ foldl_max_ge_mem (L.map StoredObject.id) 0 o.id
            (List.mem_map_of_mem _ ho)
        have h2 : (0 : ℤ) ≤ o.id := hnn o ho
        rw [h0, le_antisymm h1 h2]
      · intro q hq
        have hq1 : q.id ≤ 0 :=
          h0 ▸ foldl_max_ge_mem (L.map StoredObject.id) 0 q.id
            (List.mem_map_of_mem _ hq)
        have h2 : (0 : ℤ) ≤ o.id := hnn o ho
        omega
    · obtain ⟨o, ho, hoid⟩ := List.mem_map.mp hmem
      refine ⟨o, ho, ?_, ?_⟩
      · rw [hoid]
      · intro q hq
        rw [hoid]
        exact foldl_max_ge_mem (L.map StoredObject.id) 0 q.id
          (List.mem_map_of_mem _ hq)
  · intro store sid
    rfl
  · intro objs n o hall hmem
    have := hall o hmem
    omega

/-- Witness for the amended C8 theorem at a one-object store with id 0. -/
theorem load_next_id_spec_witness :
    ∃ o ∈ (load_objects_from_file (some [⟨0, "dda_line"⟩])).1,
      (load_objects_from_file (some [⟨0, "dda_line"⟩])).2 = o.id + 1 ∧
      ∀ q ∈ (load_objects_from_file (some [⟨0, "dda_line"⟩])).1, q.id ≤ o.id :=
  load_next_id_spec.2.2.1 [⟨0, "dda_line"⟩] (by decide) (by decide)

/-- Radius of a circle created by the drawing interaction: the truncated
distance from the center click to the radius click, replaced by 1 when it
is 0. -/
def circle_radius_from_clicks (cx cy px py : ℤ) : ℤ :=
  if ((Nat.sqrt ((px - cx) ^ 2 + (py - cy) ^ 2).toNat : ℕ) : ℤ) = 0 then 1
  else ((Nat.sqrt ((px - cx) ^ 2 + (py - cy) ^ 2).toNat : ℕ) : ℤ)

/-- A radius of an ellipse created by the drawing interaction: the absolute
coordinate difference between the center click and the radius click,
replaced by 1 when it is 0. -/
def ellipse_radius_from_clicks (c p : ℤ) : ℤ :=
  if |p - c| = 0 then 1 else |p - c|

/-- C10: every circle created by the drawing interaction has integer radius
at least 1, and every created ellipse has both radii at least 1. -/
theorem created_radii_positive :
    ∀ cx cy px py c p : ℤ,
      1 ≤ circle_radius_from_clicks cx cy px py ∧
        1 ≤ ellipse_radius_from_clicks c p := by
  intro cx cy px py c p
  constructor
  · rw [circle_radius_from_clicks]
    split
    · exact le_refl 1
    · rename_i h
      omega
  · rw [ellipse_radius_from_clicks]
    split
    · exact le_refl 1
    · rename_i h
      have := abs_nonneg (p - c)
      omega

end GraphicsEditor
